import Mathlib

/-!
Verification of the QuietNote encrypted note-storage core.

The development shallowly embeds the crypto module (CryptoManager,
PINValidator), the storage layer (StorageManager, background message
handlers) and the schema migrator (MigrationManager) of the QuietNote
repository, and proves or refutes the specification claims about them.

Platform primitives (WebCrypto AES-GCM / PBKDF2, the WHATWG URL parser,
`Date.now`, random IV/salt generation) are not code of the repository; they
are modelled: deterministic primitives become explicit parameters packaged
in `SubtleCrypto`, nondeterministic inputs (fresh IVs, salts, clock
readings) become explicit arguments, and the base64 / UTF-8 transport
codecs (`btoa`/`atob`, TextEncoder/TextDecoder) are treated as the identity
transport on byte sequences, so payloads are `List Nat` byte lists.
-/

/-- Modelled from the spec: the WebCrypto AES-GCM / PBKDF2 platform
primitives used by crypto.ts and background.js.  AES-GCM is modelled by its
CTR-mode structure: a per-(key, iv) byte keystream XORed into the payload,
with a 16-byte authentication tag (a deterministic function of key, iv and
ciphertext body) appended to the ciphertext, exactly as WebCrypto embeds the
GCM tag in the ciphertext output.  PBKDF2 is an abstract deterministic
function of the PIN and salt. -/
structure SubtleCrypto where
  keystream : List Nat → List Nat → Nat → Nat
  tagOf : List Nat → List Nat → List Nat → List Nat
  pbkdf2 : String → List Nat → List Nat
  tagOf_length : ∀ k iv body, (tagOf k iv body).length = 16

/-- Keystream bytes for a payload of length `n` under (key, iv). -/
def ksBytes (P : SubtleCrypto) (key iv : List Nat) (n : Nat) : List Nat :=
  (List.range n).map (P.keystream key iv)

/-- Model of `crypto.subtle.encrypt({name:'AES-GCM', iv}, key, data)`:
ciphertext body (keystream XOR) with the 16-byte GCM tag appended. -/
def subtleEncrypt (P : SubtleCrypto) (key iv data : List Nat) : List Nat :=
  let body := data.zipWith Nat.xor (ksBytes P key iv data.length)
  body ++ P.tagOf key iv body

/-- Model of `crypto.subtle.decrypt({name:'AES-GCM', iv}, key, payload)`:
split off the trailing 16-byte tag, recompute and verify it, and XOR the
keystream back out; `none` models the thrown `OperationError` on a tag
mismatch or an undersized payload. -/
def subtleDecrypt (P : SubtleCrypto) (key iv payload : List Nat) : Option (List Nat) :=
  if payload.length < 16 then none
  else
    let body := payload.take (payload.length - 16)
    let tag := payload.drop (payload.length - 16)
    if tag = P.tagOf key iv body then
      some (body.zipWith Nat.xor (ksBytes P key iv body.length))
    else none

/-- EncryptionResult of crypto.ts: base64-transported ciphertext, iv and
salt (bytes here, the base64 codec being the identity transport); the `tag`
field is set to the empty string by the source because the GCM tag is
embedded in the ciphertext. -/
structure EncryptionResult where
  ciphertext : List Nat
  iv : List Nat
  salt : List Nat
  tag : List Nat
deriving DecidableEq, Repr

/-- DecryptionResult of crypto.ts. -/
structure DecryptionResult where
  plaintext : List Nat
  success : Bool
  error : Option String
deriving DecidableEq, Repr

namespace CryptoManager

/-- CryptoManager.derivePINKey (crypto.ts lines 40-71) and the background
derivePINKey (background worker lines 963-990): derive a key from the PIN
with PBKDF2, generating a fresh salt only when none is supplied.  The
source performs no validation of the pin or of the salt length; `freshSalt`
models the `crypto.getRandomValues` output used when `salt` is absent. -/
def derivePINKey (P : SubtleCrypto) (pin : String) (salt : Option (List Nat))
    (freshSalt : List Nat) : List Nat × List Nat :=
  let finalSalt := salt.getD freshSalt
  (P.pbkdf2 pin finalSalt, finalSalt)

/-- CryptoManager.encrypt (crypto.ts lines 76-99): AES-GCM encrypt with a
fresh iv (passed explicitly here), packaging ciphertext, iv and salt. -/
def encrypt (P : SubtleCrypto) (plaintext key salt iv : List Nat) : EncryptionResult :=
  { ciphertext := subtleEncrypt P key iv plaintext
    iv := iv
    salt := salt
    tag := [] }

/-- CryptoManager.decrypt (crypto.ts lines 104-132): AES-GCM decrypt,
catching any failure and returning `success := false` with an error
message, never partial plaintext. -/
def decrypt (P : SubtleCrypto) (encrypted : EncryptionResult) (key : List Nat) :
    DecryptionResult :=
  match subtleDecrypt P key encrypted.iv encrypted.ciphertext with
  | some pt => { plaintext := pt, success := true, error := none }
  | none => { plaintext := [], success := false, error := some "Decryption failed" }

end CryptoManager

namespace PINValidator

def MAX_ATTEMPTS : Nat := 5

def LOCKOUT_DURATION : Int := 900000

/-- PINValidator.isLockedOut (crypto.ts lines 248-255); `now` models the
`Date.now()` reading taken inside the function. -/
def isLockedOut (now lastAttempt : Int) (attemptCount : Nat) : Bool :=
  if attemptCount < MAX_ATTEMPTS then false
  else now - lastAttempt < LOCKOUT_DURATION

end PINValidator

/-- LockState record persisted under the `lockState` storage key. -/
structure LockState where
  locked : Bool
  lastUnlock : Nat
deriving DecidableEq, Repr

/-- In-memory initial lock state of the background worker
(`let lockState = { locked: true, lastUnlock: 0 }`). -/
def initialLockState : LockState := { locked := true, lastUnlock := 0 }

/-- StorageManager.getLockState (storage.ts lines 331-339): the stored
value, defaulting to locked with `lastUnlock = 0` when nothing is stored. -/
def getLockState (store : String → Option LockState) : LockState :=
  (store "lockState").getD { locked := true, lastUnlock := 0 }

/-- Background handleGetLockState: stored value, else the in-memory state. -/
def handleGetLockState (store : String → Option LockState) (mem : LockState) : LockState :=
  (store "lockState").getD mem

/-- XOR round trip on byte lists: applying the same keystream twice is the
identity as long as the keystream is at least as long as the data. -/
theorem zipWith_xor_zipWith_xor (data ks : List Nat) (h : data.length ≤ ks.length) :
    (data.zipWith Nat.xor ks).zipWith Nat.xor ks = data := by
  induction data generalizing ks with
  | nil => simp
  | cons a rest ih =>
    cases ks with
    | nil => simp at h
    | cons k krest =>
      simp only [List.zipWith_cons_cons, List.cons.injEq]
      exact ⟨Nat.xor_cancel_right k a, ih krest (Nat.le_of_succ_le_succ h)⟩

theorem ksBytes_length (P : SubtleCrypto) (key iv : List Nat) (n : Nat) :
    (ksBytes P key iv n).length = n := by
  simp [ksBytes]

/-- Claim C1: decrypting the envelope produced by `encrypt` with the key
produced by `derivePINKey` succeeds and returns exactly the plaintext. -/
theorem decrypt_encrypt_roundtrip (P : SubtleCrypto) (pin : String)
    (saltArg : Option (List Nat)) (freshSalt iv plaintext : List Nat) :
    CryptoManager.decrypt P
      (CryptoManager.encrypt P plaintext
        (CryptoManager.derivePINKey P pin saltArg freshSalt).1
        (CryptoManager.derivePINKey P pin saltArg freshSalt).2 iv)
      (CryptoManager.derivePINKey P pin saltArg freshSalt).1 =
      { plaintext := plaintext, success := true, error := none } := by
  set key := (CryptoManager.derivePINKey P pin saltArg freshSalt).1
  have hks : (ksBytes P key iv plaintext.length).length = plaintext.length :=
    ksBytes_length P key iv plaintext.length
  have hbody : (plaintext.zipWith Nat.xor (ksBytes P key iv plaintext.length)).length
      = plaintext.length := by
    rw [List.length_zipWith, hks, Nat.min_self]
  simp only [CryptoManager.decrypt, CryptoManager.encrypt, subtleEncrypt, subtleDecrypt]
  set body := plaintext.zipWith Nat.xor (ksBytes P key iv plaintext.length) with hbodydef
  have htag : (P.tagOf key iv body).length = 16 := P.tagOf_length key iv body
  have hlen : (body ++ P.tagOf key iv body).length = body.length + 16 := by
    rw [List.length_append, htag]
  have hnotlt : ¬ (body ++ P.tagOf key iv body).length < 16 := by omega
  have hsub : (body ++ P.tagOf key iv body).length - 16 = body.length := by omega
  have htake : (body ++ P.tagOf key iv body).take body.length = body :=
    List.take_left body (P.tagOf key iv body)
  have hdrop : (body ++ P.tagOf key iv body).drop body.length = P.tagOf key iv body :=
    List.drop_left body (P.tagOf key iv body)
  rw [if_neg hnotlt, hsub, htake, hdrop, if_pos rfl]
  have hxor : body.zipWith Nat.xor (ksBytes P key iv body.length) = plaintext := by
    rw [hbodydef, hbody]
    exact zipWith_xor_zipWith_xor plaintext (ksBytes P key iv plaintext.length)
      (le_of_eq hks.symm)
  simp [hxor]

/-- Claim C6 counterexample: `derivePINKey` performs no input validation.
With the constant PBKDF2 model, a supplied salt of length 3 (not the
required 32) and even an empty pin still produce a derived key and echo the
malformed salt; no KeyDerivationError exists anywhere in the source. -/
theorem derivePINKey_no_validation_cex :
    CryptoManager.derivePINKey
      { keystream := fun _ _ _ => 0
        tagOf := fun _ _ _ => List.replicate 16 0
        pbkdf2 := fun _ _ => List.replicate 32 7
        tagOf_length := by intro _ _ _; simp }
      "" (some [1, 2, 3]) (List.replicate 32 0) =
      (List.replicate 32 7, [1, 2, 3]) := rfl

/-- Claim C6 (amended): for every pin (including the empty string) and
every supplied salt of any length, `derivePINKey` signals no error: it
derives `pbkdf2(pin, salt)` and returns it with the supplied salt
unchanged. -/
theorem derivePINKey_total_on_bad_input (P : SubtleCrypto) (pin : String)
    (salt freshSalt : List Nat) (hbad : pin = "" ∨ salt.length ≠ 32) :
    CryptoManager.derivePINKey P pin (some salt) freshSalt = (P.pbkdf2 pin salt, salt) := by
  cases hbad <;> rfl

/-- Claim C6 amended witness at pin `""` and a 3-byte salt. -/
theorem derivePINKey_total_on_bad_input_witness :
    CryptoManager.derivePINKey
      { keystream := fun _ _ _ => 0
        tagOf := fun _ _ _ => List.replicate 16 0
        pbkdf2 := fun _ _ => List.replicate 32 7
        tagOf_length := by intro _ _ _; simp }
      "" (some [1, 2, 3, 4, 5]) [9] =
      (List.replicate 32 7, [1, 2, 3, 4, 5]) :=
  derivePINKey_total_on_bad_input _ "" [1, 2, 3, 4, 5] [9] (Or.inl rfl)

/-- Claim C7: `isLockedOut` returns true exactly when at least
MAX_ATTEMPTS (5) failures are recorded and less than
LOCKOUT_DURATION (900000 ms) has elapsed since the last attempt; hence a
6th attempt within the window is rejected regardless of the PIN, and once
the window has elapsed it is accepted again. -/
theorem isLockedOut_iff (now lastAttempt : Int) (attemptCount : Nat) :
    PINValidator.isLockedOut now lastAttempt attemptCount = true ↔
      5 ≤ attemptCount ∧ now - lastAttempt < 900000 := by
  unfold PINValidator.isLockedOut PINValidator.MAX_ATTEMPTS PINValidator.LOCKOUT_DURATION
  by_cases h : attemptCount < 5
  · rw [if_pos h]
    simp only [Bool.false_eq_true, false_iff, not_and]
    intro h5
    omega
  · rw [if_neg h]
    simp only [decide_eq_true_eq]
    omega

/-- Claim C9: with no persisted `lockState` key, both the storage layer
and the background handler (from its initial in-memory state) report
locked with `lastUnlock = 0`. -/
theorem getLockState_default (store : String → Option LockState)
    (h : store "lockState" = none) :
    getLockState store = { locked := true, lastUnlock := 0 } ∧
      handleGetLockState store initialLockState = { locked := true, lastUnlock := 0 } := by
  constructor
  · simp [getLockState, h]
  · simp [handleGetLockState, initialLockState, h]

/-- Claim C9 witness on the empty store. -/
theorem getLockState_default_witness :
    getLockState (fun _ => none) = { locked := true, lastUnlock := 0 } ∧
      handleGetLockState (fun _ => none) initialLockState =
        { locked := true, lastUnlock := 0 } :=
  getLockState_default (fun _ => none) rfl

/-- Character allowed in a URL scheme after the first letter. -/
def isSchemeChar (c : Char) : Bool :=
  c.isAlpha || c.isDigit || c = '+' || c = '-' || c = '.'

/-- Scheme validity: nonempty, starts with a letter, scheme characters. -/
def validScheme : List Char → Bool
  | [] => false
  | c :: rest => c.isAlpha && (c :: rest).all isSchemeChar

/-- Split a character list at the first `://`, returning the characters
before it and after it. -/
def splitSchemeSep : List Char → Option (List Char × List Char)
  | [] => none
  | ':' :: '/' :: '/' :: rest => some ([], rest)
  | c :: rest => (splitSchemeSep rest).map (fun p => (c :: p.1, p.2))

/-- Decimal value of a digit list. -/
def digitsToNat (l : List Char) : Nat :=
  l.foldl (fun acc c => acc * 10 + (c.toNat - 48)) 0

/-- Drop a default port (443 for https, 80 for http) from a `host` or
`host:port` component; `none` models a URL-parse failure (empty hostname
with a port, or a non-numeric port). -/
def stripDefaultPort (scheme : String) (host : List Char) : Option (List Char) :=
  let hostname := host.takeWhile (fun c => c ≠ ':')
  if hostname.length = host.length then some host
  else
    let port := host.drop (hostname.length + 1)
    if hostname.isEmpty then none
    else if port.isEmpty then some hostname
    else if !port.all Char.isDigit then none
    else if (scheme = "https" && digitsToNat port == 443)
        || (scheme = "http" && digitsToNat port == 80) then some hostname
    else some (hostname ++ ':' :: port)

/-- Parsed URL components as read off a WHATWG `URL` object: `protocol`
includes the trailing colon, `host` includes any non-default port, and
`pathname` excludes query string and fragment. -/
structure URLParts where
  protocol : String
  host : String
  pathname : String
deriving DecidableEq, Repr

/-- Parse the authority and path that follow `scheme://`. -/
def parseAuthority (scheme : String) (rest : List Char) : Option URLParts :=
  let hostRaw := rest.takeWhile (fun c => c ≠ '/' && c ≠ '?' && c ≠ '#')
  if hostRaw.isEmpty then none
  else
    match stripDefaultPort scheme hostRaw with
    | none => none
    | some host =>
      let path := (rest.drop hostRaw.length).takeWhile (fun c => c ≠ '?' && c ≠ '#')
      let pathStr :=
        if path.isEmpty && (scheme = "http" || scheme = "https") then "/"
        else String.mk path
      some { protocol := scheme ++ ":", host := String.mk host, pathname := pathStr }

/-- Modelled from the spec: the WHATWG `new URL` parser is platform code;
it is modelled here for hierarchical `scheme://host/path` URLs — scheme
validation, host up to the first `/`, `?` or `#`, default-port stripping
for http/https, path up to the first `?` or `#` (defaulting to `/` for
http/https), failure (`none`, the thrown TypeError) otherwise. -/
def parseURL (s : String) : Option URLParts :=
  (splitSchemeSep s.data).bind fun p =>
    if validScheme p.1 then parseAuthority (String.mk p.1) p.2 else none

/-- normalizeUrl as written identically in storage.ts lines 414-421,
migration.ts lines 108-115 and the background worker: (protocol)//(host)
(pathname) of the parsed URL, or the input unchanged when parsing fails. -/
def normalizeUrl (url : String) : String :=
  match parseURL url with
  | some u => u.protocol ++ "//" ++ u.host ++ u.pathname
  | none => url

/-- Hexadecimal digit test, as in the source regexes `[0-9A-Fa-f]`. -/
def isHexDigit (c : Char) : Bool :=
  c.isDigit || ('a' ≤ c && c ≤ 'f') || ('A' ≤ c && c ≤ 'F')

/-- Test for the `#RRGGBB` shape (regex `^#[0-9A-Fa-f]{6}$`). -/
def isHex6 (s : String) : Bool :=
  match s.data with
  | '#' :: rest => rest.length == 6 && rest.all isHexDigit
  | _ => false

/-- Test for the `#RGB` shape (regex `^#[0-9A-Fa-f]{3}$`). -/
def isHex3 (s : String) : Bool :=
  match s.data with
  | '#' :: rest => rest.length == 3 && rest.all isHexDigit
  | _ => false

/-- Expansion of `#rgb` to `#RRGGBB` by doubling each digit. -/
def expandHex3 (s : String) : String :=
  match s.data with
  | ['#', r, g, b] => String.mk (('#' :: [r, r, g, g, b, b]).map Char.toUpper)
  | _ => s

/-- Named legacy color table of migration.ts lines 137-144 (and the
background worker), with the default `#FFF9E6` for unknown names. -/
def colorLookup (s : String) : String :=
  if s = "yellow" then "#FFF9E6"
  else if s = "blue" then "#E3F2FD"
  else if s = "green" then "#E8F5E9"
  else if s = "pink" then "#FCE4EC"
  else if s = "purple" then "#F3E5F5"
  else if s = "orange" then "#FFF3E0"
  else "#FFF9E6"

/-- MigrationManager.normalizeColor (migration.ts lines 120-147): 6-hex
uppercased, 3-hex doubled and uppercased, else the named-color table on the
lowercased input with `#FFF9E6` as fallback; absent or empty color gives
the default directly. -/
def normalizeColor (color : Option String) : String :=
  match color with
  | none => "#FFF9E6"
  | some s =>
    if s.data.isEmpty then "#FFF9E6"
    else if isHex6 s then String.mk (s.data.map Char.toUpper)
    else if isHex3 s then expandHex3 s
    else colorLookup (String.mk (s.data.map Char.toLower))


theorem isSchemeChar_safe {c : Char} (h : isSchemeChar c = true) : c ≠ '?' ∧ c ≠ '#' := by
  constructor <;> rintro rfl <;> simp [isSchemeChar] at h

theorem validScheme_all {sch : List Char} (h : validScheme sch = true) :
    ∀ c ∈ sch, isSchemeChar c = true := by
  cases sch with
  | nil => simp [validScheme] at h
  | cons c rest =>
    intro x hx
    have := (Bool.and_eq_true _ _).mp h
    exact List.all_eq_true.mp this.2 x hx

theorem stripDefaultPort_subset {scheme : String} {h out : List Char}
    (hs : stripDefaultPort scheme h = some out) : ∀ c ∈ out, c ∈ h ∨ c = ':' := by
  unfold stripDefaultPort at hs
  set hostname := h.takeWhile (fun c => c ≠ ':') with hhn
  have hsubhn : ∀ c ∈ hostname, c ∈ h := fun c hc =>
    (List.takeWhile_sublist _).subset hc
  by_cases h1 : hostname.length = h.length
  · rw [if_pos h1] at hs
    intro c hc
    exact Or.inl (Option.some.inj hs ▸ hc)
  · rw [if_neg h1] at hs
    set port := h.drop (hostname.length + 1) with hport
    have hsubport : ∀ c ∈ port, c ∈ h := fun c hc => List.drop_subset _ _ hc
    by_cases h2 : hostname.isEmpty
    · rw [if_pos h2] at hs; exact absurd hs (by simp)
    · rw [if_neg h2] at hs
      by_cases h3 : port.isEmpty
      · rw [if_pos h3] at hs
        intro c hc
        exact Or.inl (hsubhn c (Option.some.inj hs ▸ hc))
      · rw [if_neg h3] at hs
        by_cases h4 : !port.all Char.isDigit
        · rw [if_pos h4] at hs; exact absurd hs (by simp)
        · rw [if_neg h4] at hs
          by_cases h5 : (scheme = "https" && digitsToNat port == 443)
              || (scheme = "http" && digitsToNat port == 80)
          · rw [if_pos h5] at hs
            intro c hc
            exact Or.inl (hsubhn c (Option.some.inj hs ▸ hc))
          · rw [if_neg h5] at hs
            intro c hc
            rw [← Option.some.inj hs] at hc
            rcases List.mem_append.mp hc with hc1 | hc2
            · exact Or.inl (hsubhn c hc1)
            · rcases List.mem_cons.mp hc2 with hceq | hc3
              · exact Or.inr hceq
              · exact Or.inl (hsubport c hc3)

theorem parseAuthority_props {scheme : String} {rest : List Char} {u : URLParts}
    (hp : parseAuthority scheme rest = some u) :
    u.protocol = scheme ++ ":" ∧
      (∀ c ∈ u.host.data, c ≠ '?' ∧ c ≠ '#') ∧
      (∀ c ∈ u.pathname.data, c ≠ '?' ∧ c ≠ '#') := by
  unfold parseAuthority at hp
  set hostRaw := rest.takeWhile (fun c => c ≠ '/' && c ≠ '?' && c ≠ '#') with hhr
  have hrawsafe : ∀ c ∈ hostRaw, c ≠ '?' ∧ c ≠ '#' := by
    intro c hc
    have := List.mem_takeWhile_imp hc
    have h1 := (Bool.and_eq_true _ _).mp this
    have h2 := (Bool.and_eq_true _ _).mp h1.1
    exact ⟨by simpa using h2.2, by simpa using h1.2⟩
  by_cases h0 : hostRaw.isEmpty
  · rw [if_pos h0] at hp; exact absurd hp (by simp)
  · rw [if_neg h0] at hp
    cases hsp : stripDefaultPort scheme hostRaw with
    | none => rw [hsp] at hp; exact absurd hp (by simp)
    | some host =>
      rw [hsp] at hp
      set path := (rest.drop hostRaw.length).takeWhile (fun c => c ≠ '?' && c ≠ '#')
        with hpath
      have hpathsafe : ∀ c ∈ path, c ≠ '?' ∧ c ≠ '#' := by
        intro c hc
        have := List.mem_takeWhile_imp hc
        have h1 := (Bool.and_eq_true _ _).mp this
        exact ⟨by simpa using h1.1, by simpa using h1.2⟩
      have hu := Option.some.inj hp
      refine ⟨by rw [← hu], ?_, ?_⟩
      · intro c hc
        rw [← hu] at hc
        rcases stripDefaultPort_subset hsp c hc with hmem | hcol
        · exact hrawsafe c hmem
        · subst hcol; exact ⟨by decide, by decide⟩
      · intro c hc
        rw [← hu] at hc
        by_cases hps : path.isEmpty && (scheme = "http" || scheme = "https")
        · rw [if_pos hps] at hc
          rcases List.mem_cons.mp hc with hceq | hc2
          · subst hceq; exact ⟨by decide, by decide⟩
          · simp at hc2
        · rw [if_neg hps] at hc
          exact hpathsafe c hc

theorem parseURL_inv {s : String} {u : URLParts} (h : parseURL s = some u) :
    ∃ sch rest, splitSchemeSep s.data = some (sch, rest) ∧
      validScheme sch = true ∧ parseAuthority (String.mk sch) rest = some u := by
  unfold parseURL at h
  cases hss : splitSchemeSep s.data with
  | none => rw [hss] at h; exact absurd h (by simp)
  | some p =>
    rw [hss] at h
    rw [Option.some_bind] at h
    by_cases hv : validScheme p.1
    · rw [if_pos hv] at h
      exact ⟨p.1, p.2, rfl, hv, h⟩
    · rw [if_neg hv] at h
      exact absurd h (by simp)

/-- Claim C10: normalizeUrl is total; on an input that parses as a URL it
returns protocol//host/pathname with the query string and the fragment
stripped (no `?` or `#` remains), and on every other input it returns the
input string unchanged. -/
theorem normalizeUrl_strips_query_and_fragment :
    (∀ s u, parseURL s = some u →
        normalizeUrl s = u.protocol ++ "//" ++ u.host ++ u.pathname ∧
          ∀ c ∈ (normalizeUrl s).data, c ≠ '?' ∧ c ≠ '#') ∧
      ∀ s, parseURL s = none → normalizeUrl s = s := by
  constructor
  · intro s u h
    have heq : normalizeUrl s = u.protocol ++ "//" ++ u.host ++ u.pathname := by
      unfold normalizeUrl
      rw [h]
    refine ⟨heq, ?_⟩
    obtain ⟨sch, rest, hss, hv, hpa⟩ := parseURL_inv h
    obtain ⟨hprot, hhost, hpathn⟩ := parseAuthority_props hpa
    intro c hc
    rw [heq] at hc
    have hc2 : c ∈ u.protocol.data ++ ('/' :: '/' :: (u.host.data ++ u.pathname.data)) := by
      simpa using hc
    rcases List.mem_append.mp hc2 with hc3 | hc4
    · rw [hprot] at hc3
      have hc5 : c ∈ sch ++ [':'] := by simpa using hc3
      rcases List.mem_append.mp hc5 with hc6 | hc7
      · exact isSchemeChar_safe (validScheme_all hv c hc6)
      · rcases List.mem_cons.mp hc7 with hceq | h8
        · subst hceq; exact ⟨by decide, by decide⟩
        · simp at h8
    · rcases List.mem_cons.mp hc4 with hceq | hc5
      · subst hceq; exact ⟨by decide, by decide⟩
      · rcases List.mem_cons.mp hc5 with hceq2 | hc6
        · subst hceq2; exact ⟨by decide, by decide⟩
        · rcases List.mem_append.mp hc6 with hc7 | hc8
          · exact hhost c hc7
          · exact hpathn c hc8
  · intro s h
    unfold normalizeUrl
    rw [h]

/-- Claim C10 witness: a URL with query and fragment is normalized to
protocol//host/path, and a non-URL string passes through unchanged. -/
theorem normalizeUrl_witness :
    normalizeUrl "https://ex.com/a?x=1#h" =
        ("https:" : String) ++ "//" ++ "ex.com" ++ "/a" ∧
      normalizeUrl "not a url" = "not a url" :=
  ⟨(normalizeUrl_strips_query_and_fragment.1 "https://ex.com/a?x=1#h"
      { protocol := "https:", host := "ex.com", pathname := "/a" } (by decide)).1,
    normalizeUrl_strips_query_and_fragment.2 "not a url" (by decide)⟩

/-- Pixel position of a note. -/
structure Pos where
  x : Int
  y : Int
deriving DecidableEq, Repr

/-- Pixel size of a note. -/
structure Size where
  width : Nat
  height : Nat
deriving DecidableEq, Repr

/-- Named default positions, the keys of DEFAULT_POSITIONS.  The TS
signature of migrateNote/migrateAllNotes restricts the default-position
setting to exactly these four names. -/
inductive PosName
  | topRight
  | topLeft
  | bottomRight
  | bottomLeft
deriving DecidableEq, Repr

/-- Named default sizes, the keys of DEFAULT_SIZES. -/
inductive SizeName
  | small
  | medium
  | large
deriving DecidableEq, Repr

/-- DEFAULT_POSITIONS table (migration.ts lines 43-48). -/
def DEFAULT_POSITIONS : PosName → Pos
  | .topRight => { x := 1600, y := 20 }
  | .topLeft => { x := 20, y := 20 }
  | .bottomRight => { x := 1600, y := 860 }
  | .bottomLeft => { x := 20, y := 860 }

/-- DEFAULT_SIZES table (migration.ts lines 50-54). -/
def DEFAULT_SIZES : SizeName → Size
  | .small => { width := 200, height := 150 }
  | .medium => { width := 300, height := 200 }
  | .large => { width := 400, height := 300 }

/-- The `_metadata` object attached to a stored v2 note. -/
structure Meta where
  tags : Option (List String) := none
  pinned : Option Bool := none
  encrypted : Bool := false
  contentEncryptionMetadata : Option String := none
deriving DecidableEq, Repr

/-- Dynamic shape of a value stored under a `note:` key: every field the
old or the new schema may carry is optional (`none` = the JS property is
absent).  `pageURL` distinguishes an absent property (`none`) from an
explicit `null` (`some none`), because the migration skip check uses
`hasOwnProperty`; the envelope blob is kept opaque. -/
structure JNote where
  id : Option String := none
  title : Option String := none
  content : Option String := none
  url : Option String := none
  color : Option String := none
  createdAt : Option Nat := none
  updatedAt : Option Nat := none
  encrypted : Option Bool := none
  tags : Option (List String) := none
  pinned : Option Bool := none
  encryptionMetadata : Option String := none
  position : Option Pos := none
  size : Option Size := none
  pageURL : Option (Option String) := none
  masked : Option Bool := none
  meta : Option Meta := none
deriving DecidableEq, Repr

/-- The new-schema Note of migration.ts / storage.ts (spec Record, with
`pageURL` the field the spec calls scopeKey). -/
structure NoteV2 where
  id : String
  createdAt : Nat
  updatedAt : Nat
  title : String
  content : String
  color : String
  position : Pos
  size : Size
  pageURL : Option String
  masked : Bool
deriving DecidableEq, Repr

/-- JS falsiness of an optional string (undefined or empty). -/
def jsFalsyStr : Option String → Bool
  | none => true
  | some s => s.isEmpty

/-- JS falsiness of an optional number (undefined or zero). -/
def jsFalsyNat : Option Nat → Bool
  | none => true
  | some n => n == 0

/-- MigrationError log entry (migration.ts lines 32-37); `timestamp`
carries the `Date.now()` reading passed in by the caller. -/
structure MigError where
  noteId : Option String
  error : String
  originalData : JNote
  timestamp : Nat
deriving DecidableEq, Repr

/-- Result of migrating one note: the new note plus metadata, or the
logged error (the source returns null and pushes onto a static error
list; the error is carried in the result here). -/
inductive MigResult
  | ok (note : NoteV2) (metadata : Meta)
  | err (e : MigError)
deriving DecidableEq, Repr

namespace MigrationManager

/-- MigrationManager.migrateNote (migration.ts lines 65-103): validate the
JS-truthiness of id, createdAt and updatedAt (so an empty id or a zero
timestamp also fails), then build the new Note and its metadata. -/
def migrateNote (oldNote : JNote) (defaultPosition : PosName)
    (defaultSize : SizeName) (now : Nat) : MigResult :=
  if jsFalsyStr oldNote.id || jsFalsyNat oldNote.createdAt
      || jsFalsyNat oldNote.updatedAt then
    .err { noteId := oldNote.id
           error := "Missing required fields: id, createdAt, or updatedAt"
           originalData := oldNote
           timestamp := now }
  else
    .ok
      { id := oldNote.id.getD ""
        createdAt := oldNote.createdAt.getD 0
        updatedAt := oldNote.updatedAt.getD 0
        title := oldNote.title.getD ""
        content := oldNote.content.getD ""
        color := normalizeColor oldNote.color
        position := DEFAULT_POSITIONS defaultPosition
        size := DEFAULT_SIZES defaultSize
        pageURL := match oldNote.url with
          | some u => if u.isEmpty then none else some (normalizeUrl u)
          | none => none
        masked := false }
      { tags := oldNote.tags
        pinned := oldNote.pinned
        encrypted := oldNote.encrypted.getD false
        contentEncryptionMetadata := oldNote.encryptionMetadata }

end MigrationManager

/-- Claim C5: the concrete legacy record migrates with defaults
top-right/medium to exactly the claimed new record — the legacy url is
normalized to origin+path with query and fragment stripped, `yellow` maps
to `#FFF9E6`, and geometry comes from the named default tables; the
metadata carries over `encrypted = false` and no envelope. -/
theorem migrateNote_concrete_mapping (now : Nat) :
    MigrationManager.migrateNote
      { id := some "n1", title := some "T", content := some "C"
        url := some "https://ex.com/a?x=1#h", color := some "yellow"
        createdAt := some 1000, updatedAt := some 1000, encrypted := some false }
      PosName.topRight SizeName.medium now =
      MigResult.ok
        { id := "n1", createdAt := 1000, updatedAt := 1000, title := "T"
          content := "C", color := "#FFF9E6", position := { x := 1600, y := 20 }
          size := { width := 300, height := 200 }
          pageURL := some "https://ex.com/a", masked := false }
        { tags := none, pinned := none, encrypted := false
          contentEncryptionMetadata := none } := by
  rfl

/-- Model of `key.startsWith('note:')`, the record-key test used by every
full-scan loop (String.startsWith at the character-list level). -/
def isNoteKey (k : String) : Bool :=
  "note:".data.isPrefixOf k.data

/-- Storage key computed for a migrated note from its pageURL and id
(migration.ts lines 228-230, background worker lines 1170-1172). -/
def newKeyOf (n : NoteV2) : String :=
  match n.pageURL with
  | some u => "note:" ++ u ++ ":" ++ n.id
  | none => "note:" ++ n.id

/-- Stored value written for a migrated note: the note fields with the
metadata embedded under `_metadata` (autoMigrate, migration.ts lines
314-319); every legacy field is absent from the written object. -/
def jnoteOfV2 (n : NoteV2) (m : Meta) : JNote :=
  { id := some n.id, createdAt := some n.createdAt, updatedAt := some n.updatedAt
    title := some n.title, content := some n.content, color := some n.color
    position := some n.position, size := some n.size, pageURL := some n.pageURL
    masked := some n.masked, meta := some m }

/-- Skip check of migrateAllNotes (migration.ts lines 214-219) and
runMigration: truthy `position` and `size` plus a present `pageURL`
property (`hasOwnProperty`, so an explicit null also counts). -/
def alreadyMigrated (v : JNote) : Bool :=
  v.position.isSome && v.size.isSome && v.pageURL.isSome

/-- Accumulated outcome of one migration pass over storage: values to
write keyed by their new key, old keys staged for deletion, and the logged
errors. -/
structure MigBatch where
  updates : List (String × JNote)
  toDelete : List String
  errors : List MigError
deriving DecidableEq, Repr

namespace MigrationManager

/-- MigrationManager.migrateAllNotes (migration.ts lines 198-244) fused
with the update/toDelete staging loop of autoMigrate (lines 311-326): walk
every entry, skip non-`note:` keys and already-migrated values, migrate
the rest, staging the old key for deletion when it differs from the new
key; failures only log an error. -/
def migrateAllNotes (dp : PosName) (ds : SizeName) (now : Nat) :
    List (String × JNote) → MigBatch
  | [] => { updates := [], toDelete := [], errors := [] }
  | (key, value) :: rest =>
    let acc := migrateAllNotes dp ds now rest
    if !isNoteKey key then acc
    else if alreadyMigrated value then acc
    else
      match migrateNote value dp ds now with
      | .err e => { acc with errors := e :: acc.errors }
      | .ok note metadata =>
        let newKey := newKeyOf note
        { updates := (newKey, jnoteOfV2 note metadata) :: acc.updates
          toDelete := if key ≠ newKey then key :: acc.toDelete else acc.toDelete
          errors := acc.errors }

end MigrationManager

/-- Model of `chrome.storage.local.set({[k]: v})` on an entry list:
replace the value at an existing key, else append the new entry. -/
def setKey (k : String) (v : JNote) (s : List (String × JNote)) : List (String × JNote) :=
  if s.any (fun e => e.1 == k) then s.map (fun e => if e.1 == k then (k, v) else e)
  else s ++ [(k, v)]

/-- Model of `chrome.storage.local.set(updates)`: apply each staged write;
a later write to the same key wins, as in the JS updates object. -/
def setAll (upds : List (String × JNote)) (s : List (String × JNote)) :
    List (String × JNote) :=
  upds.foldl (fun acc e => setKey e.1 e.2 acc) s

/-- Model of `chrome.storage.local.remove(keys)`. -/
def removeKeys (ks : List String) (s : List (String × JNote)) : List (String × JNote) :=
  s.filter (fun e => !ks.contains e.1)

namespace MigrationManager

/-- One full migration pass over storage as performed by autoMigrate /
runMigration once past the completion-flag check: compute the batch, write
all migrated values, then delete the staged old keys (write-new-then-
delete-old order).  The `migration_v2_done` flag only short-circuits a
later pass and is deliberately not modelled: the claims concern the
behavior independent of the flag. -/
def autoMigrate (dp : PosName) (ds : SizeName) (now : Nat)
    (s : List (String × JNote)) : List (String × JNote) :=
  removeKeys (migrateAllNotes dp ds now s).toDelete
    (setAll (migrateAllNotes dp ds now s).updates s)

end MigrationManager

theorem alreadyMigrated_jnoteOfV2 (n : NoteV2) (m : Meta) :
    alreadyMigrated (jnoteOfV2 n m) = true := rfl

/-- Entry on which a migration pass has no storage effect: not a note key,
already migrated, or failing validation. -/
def entryInert (dp : PosName) (ds : SizeName) (now : Nat) (e : String × JNote) : Bool :=
  !isNoteKey e.1 || alreadyMigrated e.2 ||
    match MigrationManager.migrateNote e.2 dp ds now with
    | .err _ => true
    | .ok _ _ => false

theorem mem_setKey {e : String × JNote} {k : String} {v : JNote}
    {s : List (String × JNote)} (h : e ∈ setKey k v s) :
    e = (k, v) ∨ (e ∈ s ∧ e.1 ≠ k) := by
  unfold setKey at h
  by_cases ha : s.any (fun x => x.1 == k)
  · rw [if_pos ha] at h
    obtain ⟨a, hmem, hfa⟩ := List.mem_map.mp h
    by_cases hak : a.1 == k
    · rw [if_pos hak] at hfa
      exact Or.inl hfa.symm
    · rw [if_neg hak] at hfa
      refine Or.inr ⟨hfa ▸ hmem, ?_⟩
      rw [← hfa]
      simpa using hak
  · rw [if_neg ha] at h
    rcases List.mem_append.mp h with h1 | h2
    · refine Or.inr ⟨h1, ?_⟩
      intro hek
      exact ha (List.any_eq_true.mpr ⟨e, h1, by simp [hek]⟩)
    · left
      simpa using h2

theorem mem_setAll {e : String × JNote} : ∀ {upds s : List (String × JNote)},
    e ∈ setAll upds s → e ∈ upds ∨ (e ∈ s ∧ ∀ u ∈ upds, e.1 ≠ u.1) := by
  intro upds
  induction upds with
  | nil =>
    intro s h
    exact Or.inr ⟨h, by simp⟩
  | cons u rest ih =>
    intro s h
    rcases ih h with h1 | ⟨h2, h3⟩
    · exact Or.inl (List.mem_cons_of_mem u h1)
    · rcases mem_setKey h2 with heq | ⟨h4, h5⟩
      · left
        rw [heq]
        exact List.mem_cons_self _ _
      · refine Or.inr ⟨h4, ?_⟩
        intro w hw
        rcases List.mem_cons.mp hw with hw1 | hw2
        · rw [hw1]
          exact h5
        · exact h3 w hw2

theorem mem_setAll_of {e : String × JNote} : ∀ {upds s : List (String × JNote)},
    e ∈ s → (∀ u ∈ upds, e.1 ≠ u.1) → e ∈ setAll upds s := by
  intro upds
  induction upds with
  | nil =>
    intro s h _
    exact h
  | cons u rest ih =>
    intro s h hne
    refine ih ?_ (fun w hw => hne w (List.mem_cons_of_mem u hw))
    show e ∈ setKey u.1 u.2 s
    unfold setKey
    have heu : (e.1 == u.1) = false := by
      simpa using hne u (List.mem_cons_self u rest)
    by_cases ha : s.any (fun x => x.1 == u.1)
    · rw [if_pos ha]
      exact List.mem_map.mpr ⟨e, h, by rw [if_neg (by simp [heu])]⟩
    · rw [if_neg ha]
      exact List.mem_append_left _ h

theorem mem_removeKeys {e : String × JNote} {ks : List String}
    {s : List (String × JNote)} :
    e ∈ removeKeys ks s ↔ e ∈ s ∧ ks.contains e.1 = false := by
  unfold removeKeys
  rw [List.mem_filter]
  simp [Bool.not_eq_true']

theorem migrateAllNotes_updates_shape (dp : PosName) (ds : SizeName) (now : Nat) :
    ∀ (l : List (String × JNote)) e,
      e ∈ (MigrationManager.migrateAllNotes dp ds now l).updates →
      ∃ n m, e = (newKeyOf n, jnoteOfV2 n m) := by
  intro l
  induction l with
  | nil =>
    intro e he
    simp [MigrationManager.migrateAllNotes] at he
  | cons hd tl ih =>
    obtain ⟨key, value⟩ := hd
    intro e he
    simp only [MigrationManager.migrateAllNotes] at he
    by_cases h1 : isNoteKey key
    · by_cases h2 : alreadyMigrated value
      · rw [if_neg (by simp [h1]), if_pos h2] at he
        exact ih e he
      · rw [if_neg (by simp [h1]), if_neg (by simp [h2])] at he
        cases hm : MigrationManager.migrateNote value dp ds now with
        | err er =>
          rw [hm] at he
          exact ih e he
        | ok n m =>
          rw [hm] at he
          rcases List.mem_cons.mp he with heq | htail
          · exact ⟨n, m, heq⟩
          · exact ih e htail
    · rw [if_pos (by simp [h1])] at he
      exact ih e he

theorem migrateAllNotes_of_inert (dp : PosName) (ds : SizeName) (now : Nat)
    (l : List (String × JNote)) (h : ∀ e ∈ l, entryInert dp ds now e = true) :
    (MigrationManager.migrateAllNotes dp ds now l).updates = [] ∧
      (MigrationManager.migrateAllNotes dp ds now l).toDelete = [] := by
  induction l with
  | nil => exact ⟨rfl, rfl⟩
  | cons hd tl ih =>
    have hhd := h hd (List.mem_cons_self hd tl)
    have htl := ih (fun e he => h e (List.mem_cons_of_mem hd he))
    obtain ⟨key, value⟩ := hd
    simp only [MigrationManager.migrateAllNotes]
    by_cases h1 : isNoteKey key
    · by_cases h2 : alreadyMigrated value
      · rw [if_neg (by simp [h1]), if_pos h2]
        exact htl
      · cases hm : MigrationManager.migrateNote value dp ds now with
        | err er =>
          rw [if_neg (by simp [h1]), if_neg (by simp [h2])]
          exact htl
        | ok n m =>
          exfalso
          simp [entryInert, h1, h2, hm] at hhd
    · rw [if_pos (by simp [h1])]
      exact htl

theorem migrateAllNotes_cons_mono (dp : PosName) (ds : SizeName) (now : Nat)
    (key : String) (value : JNote) (tl : List (String × JNote)) :
    (∀ e ∈ (MigrationManager.migrateAllNotes dp ds now tl).updates,
        e ∈ (MigrationManager.migrateAllNotes dp ds now ((key, value) :: tl)).updates) ∧
      ∀ k ∈ (MigrationManager.migrateAllNotes dp ds now tl).toDelete,
        k ∈ (MigrationManager.migrateAllNotes dp ds now ((key, value) :: tl)).toDelete := by
  simp only [MigrationManager.migrateAllNotes]
  by_cases h1 : isNoteKey key
  · by_cases h2 : alreadyMigrated value
    · rw [if_neg (by simp [h1]), if_pos h2]
      exact ⟨fun e he => he, fun k hk => hk⟩
    · rw [if_neg (by simp [h1]), if_neg (by simp [h2])]
      cases hm : MigrationManager.migrateNote value dp ds now with
      | err er => exact ⟨fun e he => he, fun k hk => hk⟩
      | ok n m =>
        constructor
        · intro e he
          exact List.mem_cons_of_mem _ he
        · intro k hk
          show k ∈ (if key ≠ newKeyOf n then
            key :: (MigrationManager.migrateAllNotes dp ds now tl).toDelete
            else (MigrationManager.migrateAllNotes dp ds now tl).toDelete)
          by_cases hkn : key ≠ newKeyOf n
          · rw [if_pos hkn]
            exact List.mem_cons_of_mem _ hk
          · rw [if_neg hkn]
            exact hk
  · rw [if_pos (by simp [h1])]
    exact ⟨fun e he => he, fun k hk => hk⟩

theorem migrateAllNotes_covers (dp : PosName) (ds : SizeName) (now : Nat) :
    ∀ (l : List (String × JNote)) e, e ∈ l → isNoteKey e.1 = true →
      alreadyMigrated e.2 = false →
      ∀ n m, MigrationManager.migrateNote e.2 dp ds now = .ok n m →
        (∃ u ∈ (MigrationManager.migrateAllNotes dp ds now l).updates, u.1 = e.1) ∨
          e.1 ∈ (MigrationManager.migrateAllNotes dp ds now l).toDelete := by
  intro l
  induction l with
  | nil =>
    intro e he
    simp at he
  | cons hd tl ih =>
    intro e he hk hs n m hm
    rcases List.mem_cons.mp he with heq | hetl
    · subst heq
      obtain ⟨key, value⟩ := e
      simp only at hk hs hm
      simp only [MigrationManager.migrateAllNotes]
      rw [if_neg (by simp [hk]), if_neg (by simp [hs])]
      simp only [hm]
      by_cases hkey : key = newKeyOf n
      · left
        exact ⟨(newKeyOf n, jnoteOfV2 n m),
          List.mem_cons_self _ _, by simpa using hkey.symm⟩
      · right
        show key ∈ (if key ≠ newKeyOf n then
          key :: (MigrationManager.migrateAllNotes dp ds now tl).toDelete
          else (MigrationManager.migrateAllNotes dp ds now tl).toDelete)
        rw [if_pos hkey]
        exact List.mem_cons_self _ _
    · obtain ⟨key, value⟩ := hd
      rcases ih e hetl hk hs n m hm with ⟨u, hu, hueq⟩ | hdel
      · exact Or.inl ⟨u, (migrateAllNotes_cons_mono dp ds now key value tl).1 u hu, hueq⟩
      · exact Or.inr ((migrateAllNotes_cons_mono dp ds now key value tl).2 e.1 hdel)

theorem contains_eq_false_iff {a : String} {ks : List String} :
    ks.contains a = false ↔ a ∉ ks := by
  simp

theorem autoMigrate_entries_inert (dp : PosName) (ds : SizeName) (now : Nat)
    (s : List (String × JNote)) :
    ∀ e ∈ MigrationManager.autoMigrate dp ds now s, entryInert dp ds now e = true := by
  intro e he
  unfold MigrationManager.autoMigrate at he
  obtain ⟨hmem, hdel⟩ := mem_removeKeys.mp he
  rcases mem_setAll hmem with hup | ⟨hs, hnk⟩
  · obtain ⟨n, m, rfl⟩ := migrateAllNotes_updates_shape dp ds now s _ hup
    simp [entryInert, alreadyMigrated_jnoteOfV2]
  · by_cases h1 : isNoteKey e.1
    · by_cases h2 : alreadyMigrated e.2
      · simp [entryInert, h2]
      · cases hm : MigrationManager.migrateNote e.2 dp ds now with
        | err er => simp [entryInert, hm]
        | ok n m =>
          exfalso
          rcases migrateAllNotes_covers dp ds now s e hs h1
              (by simpa using h2) n m hm with ⟨u, hu, hueq⟩ | hdel2
          · exact hnk u hu hueq.symm
          · exact contains_eq_false_iff.mp hdel hdel2
    · simp [entryInert, h1]

theorem autoMigrate_idem_aux (dp : PosName) (ds : SizeName) (now : Nat)
    (s : List (String × JNote)) :
    MigrationManager.autoMigrate dp ds now (MigrationManager.autoMigrate dp ds now s) =
      MigrationManager.autoMigrate dp ds now s := by
  obtain ⟨hu, hd⟩ := migrateAllNotes_of_inert dp ds now _
    (autoMigrate_entries_inert dp ds now s)
  conv_lhs => rw [MigrationManager.autoMigrate]
  rw [hu, hd]
  simp [setAll, removeKeys]

/-- Claim C3 (amended): one migration pass over storage is idempotent —
running it twice gives exactly the state of running it once, independently
of the completion flag (which is not consulted here at all); and an entry
already carrying position, size and an explicit pageURL property is
classified as already migrated and survives unchanged provided no other
record's migration writes or deletes its storage key. -/
theorem migration_idempotent
    (dp : PosName) (ds : SizeName) (now : Nat) (s : List (String × JNote)) :
    MigrationManager.autoMigrate dp ds now (MigrationManager.autoMigrate dp ds now s) =
        MigrationManager.autoMigrate dp ds now s ∧
      ∀ k v, (k, v) ∈ s → alreadyMigrated v = true →
        (∀ u ∈ (MigrationManager.migrateAllNotes dp ds now s).updates, k ≠ u.1) →
        k ∉ (MigrationManager.migrateAllNotes dp ds now s).toDelete →
        (k, v) ∈ MigrationManager.autoMigrate dp ds now s := by
  refine ⟨autoMigrate_idem_aux dp ds now s, ?_⟩
  intro k v hmem _ hnk hdel
  unfold MigrationManager.autoMigrate
  exact mem_removeKeys.mpr ⟨mem_setAll_of hmem hnk, contains_eq_false_iff.mpr hdel⟩

/-- Old-schema note whose migration collides with an already-migrated
entry's storage key. -/
def collisionOldNote : JNote :=
  { id := some "n1", url := some "https://a.com/p"
    createdAt := some 1, updatedAt := some 1 }

/-- Already-migrated entry stored at the key the old note migrates to. -/
def collisionMigratedNote : JNote :=
  { id := some "n1", title := some "KEEP", position := some { x := 1, y := 2 }
    size := some { width := 3, height := 4 }
    pageURL := some (some "https://a.com/p") }

/-- Storage holding both notes of the collision scenario. -/
def collisionStorage : List (String × JNote) :=
  [("note:n1", collisionOldNote), ("note:https://a.com/p:n1", collisionMigratedNote)]

/-- Claim C3 counterexample: an entry that has position, size and an
explicit pageURL (so it is classified as already migrated and skipped) is
nevertheless not left byte-for-byte unchanged — migrating the legacy note
`collisionOldNote` writes to the same storage key `note:https://a.com/p:n1`
and overwrites it, so the skipped entry is gone from the final state. -/
theorem migration_skip_overwritten_cex :
    alreadyMigrated collisionMigratedNote = true ∧
      ("note:https://a.com/p:n1", collisionMigratedNote) ∈ collisionStorage ∧
      ("note:https://a.com/p:n1", collisionMigratedNote) ∉
        MigrationManager.autoMigrate PosName.topRight SizeName.medium 0 collisionStorage := by
  refine ⟨rfl, by simp [collisionStorage], by decide⟩

/-- Claim C3 witness: on a one-entry storage whose note already bears
position, size and pageURL, the migration pass leaves the entry present. -/
theorem migration_idempotent_witness :
    ("note:done",
        ({ id := some "d", position := some { x := 5, y := 6 }
           size := some { width := 7, height := 8 }, pageURL := some none } : JNote)) ∈
      MigrationManager.autoMigrate PosName.topRight SizeName.medium 0
        [("note:done",
          { id := some "d", position := some { x := 5, y := 6 }
            size := some { width := 7, height := 8 }, pageURL := some none })] :=
  (migration_idempotent PosName.topRight SizeName.medium 0
      [("note:done",
        { id := some "d", position := some { x := 5, y := 6 }
          size := some { width := 7, height := 8 }, pageURL := some none })]).2
    "note:done" _ (by decide) (by decide) (by decide) (by decide)

/-- Valid legacy note 1 of the 3-record isolation batch. -/
def goodNote1 : JNote :=
  { id := some "g1", title := some "A", content := some "a"
    createdAt := some 5, updatedAt := some 6 }

/-- Malformed legacy note of the 3-record isolation batch: no id. -/
def noIdNote : JNote :=
  { title := some "No ID", content := some "x"
    createdAt := some 5, updatedAt := some 6 }

/-- Valid legacy note 2 of the 3-record isolation batch. -/
def goodNote3 : JNote :=
  { id := some "g3", createdAt := some 7, updatedAt := some 8 }

/-- The 3-record batch of the failure-isolation test. -/
def batchOf3 : List (String × JNote) :=
  [("note:g1", goodNote1), ("note:bad", noIdNote), ("note:g3", goodNote3)]

/-- Claim C4: per-record failure isolation.  The logged errors are exactly
one MigrationError per note-entry that fails validation, carrying the
original raw value; the staged writes are exactly one per entry that
migrates, so failures never abort the batch; and concretely, the 3-record
batch with one id-less record yields 2 staged records and exactly 1 error
whose originalData is the raw malformed note, which stays in storage
unchanged after the pass. -/
theorem migration_error_isolation :
    (∀ (dp : PosName) (ds : SizeName) (now : Nat) (l : List (String × JNote)),
        (MigrationManager.migrateAllNotes dp ds now l).errors = l.filterMap (fun e =>
          if isNoteKey e.1 && !alreadyMigrated e.2 then
            match MigrationManager.migrateNote e.2 dp ds now with
            | .err er => some er
            | .ok _ _ => none
          else none)) ∧
      (∀ (dp : PosName) (ds : SizeName) (now : Nat) (l : List (String × JNote)),
        (MigrationManager.migrateAllNotes dp ds now l).updates = l.filterMap (fun e =>
          if isNoteKey e.1 && !alreadyMigrated e.2 then
            match MigrationManager.migrateNote e.2 dp ds now with
            | .err _ => none
            | .ok n m => some (newKeyOf n, jnoteOfV2 n m)
          else none)) ∧
      ∀ now : Nat,
        (MigrationManager.migrateAllNotes PosName.topRight SizeName.medium now
            batchOf3).updates.length = 2 ∧
          (MigrationManager.migrateAllNotes PosName.topRight SizeName.medium now
              batchOf3).errors =
            [{ noteId := none
               error := "Missing required fields: id, createdAt, or updatedAt"
               originalData := noIdNote, timestamp := now }] ∧
          (MigrationManager.autoMigrate PosName.topRight SizeName.medium now
              batchOf3).lookup "note:bad" = some noIdNote := by
  refine ⟨?_, ?_, ?_⟩
  · intro dp ds now l
    induction l with
    | nil => rfl
    | cons hd tl ih =>
      obtain ⟨key, value⟩ := hd
      simp only [MigrationManager.migrateAllNotes, List.filterMap_cons]
      by_cases h1 : isNoteKey key
      · by_cases h2 : alreadyMigrated value
        · rw [if_neg (by simp [h1]), if_pos h2]
          simpa [h1, h2] using ih
        · cases hm : MigrationManager.migrateNote value dp ds now with
          | err er =>
            rw [if_neg (by simp [h1]), if_neg (by simp [h2])]
            simpa [h1, h2, hm] using ih
          | ok n m =>
            rw [if_neg (by simp [h1]), if_neg (by simp [h2])]
            simpa [h1, h2, hm] using ih
      · rw [if_pos (by simp [h1])]
        simpa [h1] using ih
  · intro dp ds now l
    induction l with
    | nil => rfl
    | cons hd tl ih =>
      obtain ⟨key, value⟩ := hd
      simp only [MigrationManager.migrateAllNotes, List.filterMap_cons]
      by_cases h1 : isNoteKey key
      · by_cases h2 : alreadyMigrated value
        · rw [if_neg (by simp [h1]), if_pos h2]
          simpa [h1, h2] using ih
        · cases hm : MigrationManager.migrateNote value dp ds now with
          | err er =>
            rw [if_neg (by simp [h1]), if_neg (by simp [h2])]
            simpa [h1, h2, hm] using ih
          | ok n m =>
            rw [if_neg (by simp [h1]), if_neg (by simp [h2])]
            simpa [h1, h2, hm] using ih
      · rw [if_pos (by simp [h1])]
        simpa [h1] using ih
  · intro now
    exact ⟨rfl, rfl, rfl⟩

/-- EncryptedNote as stored by StorageManager (storage.ts lines 9-25):
`content` holds plaintext bytes, or the ciphertext bytes when `encrypted`
with the envelope kept in `encryptionMetadata`. -/
structure StoredNote where
  id : String
  title : String
  content : List Nat
  url : Option String := none
  color : String := ""
  createdAt : Nat := 0
  updatedAt : Nat := 0
  encrypted : Bool := false
  tags : Option (List String) := none
  pinned : Option Bool := none
  encryptionMetadata : Option EncryptionResult := none
deriving DecidableEq, Repr

/-- The `if (url && note.url !== url) continue` scope filter of
getAllNotes: skip when a filter URL is given and the note URL differs. -/
def urlSkip (url : Option String) (note : StoredNote) : Bool :=
  match url with
  | none => false
  | some u => note.url ≠ some u

namespace StorageManager

/-- StorageManager.getAllNotes (storage.ts lines 210-236): scan every
entry, keep `note:`-keyed ones passing the scope filter, decrypting
content when the note is encrypted, has an envelope and a key is held;
an entry whose decryption fails is skipped (continue), not an abort. -/
def getAllNotes (P : SubtleCrypto) (encryptionKey : Option (List Nat))
    (url : Option String) : List (String × StoredNote) → List StoredNote
  | [] => []
  | (key, note) :: rest =>
    let tail := getAllNotes P encryptionKey url rest
    if !isNoteKey key then tail
    else if urlSkip url note then tail
    else
      match encryptionKey, note.encryptionMetadata, note.encrypted with
      | some k, some meta, true =>
        if (CryptoManager.decrypt P meta k).success then
          { note with content := (CryptoManager.decrypt P meta k).plaintext } :: tail
        else tail
      | _, _, _ => note :: tail

end StorageManager

/-- Export document of StorageManager.exportNotes (storage.ts lines
274-288): version, timestamp, the encryption-enabled setting, the stored
salt, and the note list. -/
structure ExportDataSM where
  version : String
  exportedAt : String
  encryptionEnabled : Bool
  encryptionSalt : Option (List Nat)
  notes : List StoredNote
deriving DecidableEq, Repr

namespace StorageManager

/-- StorageManager.exportNotes (storage.ts lines 274-288): the notes field
is the result of getAllNotes with no filter — so it reflects whatever
decryption getAllNotes performed with the currently held key. -/
def exportNotes (P : SubtleCrypto) (encryptionKey : Option (List Nat))
    (encryptionEnabled : Bool) (salt : Option (List Nat)) (nowIso : String)
    (s : List (String × StoredNote)) : ExportDataSM :=
  { version := "2.0", exportedAt := nowIso, encryptionEnabled := encryptionEnabled
    encryptionSalt := salt, notes := getAllNotes P encryptionKey none s }

end StorageManager

/-- Export document of the background handleExportNotes: version,
timestamp, whether a key is held, and the raw stored values. -/
structure ExportDataBG (α : Type) where
  version : String
  exportedAt : String
  encrypted : Bool
  notes : List α
deriving DecidableEq, Repr

/-- Background handleExportNotes (background worker lines 892-917): push
every stored value under a `note:` key verbatim — the value type is
parametric here precisely because the handler never inspects, let alone
decrypts, the stored records. -/
def handleExportNotes {α : Type} (s : List (String × α)) (keyHeld : Bool)
    (nowIso : String) : ExportDataBG α :=
  { version := "2.0", exportedAt := nowIso, encrypted := keyHeld
    notes := s.filterMap (fun e => if isNoteKey e.1 then some e.2 else none) }

/-- Claim C8: getAllNotes is exactly the per-entry filter — note-prefixed
keys passing the scope filter, decrypted when possible — and an entry
whose decryption fails contributes nothing while leaving every other
entry's contribution intact: the scan over any surrounding storage splits
around it, so one undecryptable record never prevents the rest. -/
theorem getAllNotes_partial_availability (P : SubtleCrypto) (k : List Nat)
    (url : Option String) :
    (∀ s, StorageManager.getAllNotes P (some k) url s = s.filterMap (fun e =>
        if !isNoteKey e.1 then none
        else if urlSkip url e.2 then none
        else match e.2.encryptionMetadata, e.2.encrypted with
          | some meta, true =>
            if (CryptoManager.decrypt P meta k).success then
              some { e.2 with content := (CryptoManager.decrypt P meta k).plaintext }
            else none
          | _, _ => some e.2)) ∧
      ∀ a b key note meta, note.encryptionMetadata = some meta →
        note.encrypted = true → (CryptoManager.decrypt P meta k).success = false →
        StorageManager.getAllNotes P (some k) url (a ++ (key, note) :: b) =
          StorageManager.getAllNotes P (some k) url a ++
            StorageManager.getAllNotes P (some k) url b := by
  constructor
  · intro s
    induction s with
    | nil => rfl
    | cons hd tl ih =>
      obtain ⟨key, note⟩ := hd
      simp only [StorageManager.getAllNotes, List.filterMap_cons]
      by_cases h1 : isNoteKey key
      · by_cases h2 : urlSkip url note
        · simp [h1, h2, ih]
        · cases hmeta : note.encryptionMetadata with
          | none => simp [h1, h2, hmeta, ih]
          | some meta =>
            cases henc : note.encrypted with
            | false => simp [h1, h2, hmeta, henc, ih]
            | true =>
              by_cases hdec : (CryptoManager.decrypt P meta k).success
              · simp [h1, h2, hmeta, henc, hdec, ih]
              · simp [h1, h2, hmeta, henc, hdec, ih]
      · simp [h1, ih]
  · intro a
    induction a with
    | nil =>
      intro b key note meta hmeta henc hfail
      simp only [StorageManager.getAllNotes, List.nil_append]
      by_cases h1 : isNoteKey key
      · by_cases h2 : urlSkip url note
        · simp [StorageManager.getAllNotes, h1, h2]
        · simp [StorageManager.getAllNotes, h1, h2, hmeta, henc, hfail]
      · simp [StorageManager.getAllNotes, h1]
    | cons hd a ih =>
      intro b key note meta hmeta henc hfail
      have IH := ih b key note meta hmeta henc hfail
      obtain ⟨k2, n2⟩ := hd
      simp only [List.cons_append, StorageManager.getAllNotes]
      by_cases h1 : isNoteKey k2
      · by_cases h2 : urlSkip url n2
        · simp [h1, h2, IH]
        · cases hmeta2 : n2.encryptionMetadata with
          | none => simp [h1, h2, hmeta2, IH]
          | some m2 =>
            cases henc2 : n2.encrypted with
            | false => simp [h1, h2, hmeta2, henc2, IH]
            | true =>
              by_cases hdec2 : (CryptoManager.decrypt P m2 k).success
              · simp [h1, h2, hmeta2, henc2, hdec2, IH]
              · simp [h1, h2, hmeta2, henc2, hdec2, IH]
      · simp [h1, IH]

/-- Concrete SubtleCrypto instance for witnesses and counterexamples:
constant unit keystream, all-zero 16-byte tag, constant PBKDF2. -/
def constCrypto : SubtleCrypto :=
  { keystream := fun _ _ _ => 1
    tagOf := fun _ _ _ => List.replicate 16 0
    pbkdf2 := fun _ _ => List.replicate 32 7
    tagOf_length := by intro _ _ _; simp }

/-- Stored plaintext note used by the C8 witness. -/
def plainStoredNote : StoredNote := { id := "p", title := "t", content := [7] }

/-- Malformed envelope (3-byte payload, below the 16-byte tag) whose
decryption always fails. -/
def badEnvelope : EncryptionResult :=
  { ciphertext := [1, 2, 3], iv := [0], salt := [0], tag := [] }

/-- Stored note whose decryption fails, used by the C8 witness. -/
def badStoredNote : StoredNote :=
  { id := "b", title := "t", content := [1, 2, 3], encrypted := true
    encryptionMetadata := some badEnvelope }

/-- Claim C8 witness: with a key held, a listing containing one
undecryptable record equals the listing of the rest of the storage. -/
theorem getAllNotes_partial_availability_witness :
    StorageManager.getAllNotes constCrypto (some [9]) none
        ([("note:p", plainStoredNote)] ++ ("note:b", badStoredNote) :: []) =
      StorageManager.getAllNotes constCrypto (some [9]) none
          [("note:p", plainStoredNote)] ++
        StorageManager.getAllNotes constCrypto (some [9]) none [] :=
  (getAllNotes_partial_availability constCrypto [9] none).2
    [("note:p", plainStoredNote)] [] "note:b" badStoredNote badEnvelope rfl rfl (by decide)

/-- Envelope produced by encrypting the byte `[5]` under the constant
crypto model; its ciphertext is `[4]` plus the 16-byte tag. -/
def encEnvelope : EncryptionResult := CryptoManager.encrypt constCrypto [5] [9] [3] [2]

/-- Stored note holding that ciphertext, as saveNote stores it. -/
def encStoredNote : StoredNote :=
  { id := "a", title := "t", content := encEnvelope.ciphertext, encrypted := true
    encryptionMetadata := some encEnvelope }

/-- Claim C2 counterexample: StorageManager.exportNotes does decrypt when
a key is held — the exported copy of the stored note carries the decrypted
content `[5]`, which differs from the note as stored (whose content is the
ciphertext), refuting both "records as stored" and "export never decrypts
record fields, regardless of whether a key is currently held". -/
theorem exportNotes_decrypts_cex :
    (StorageManager.exportNotes constCrypto (some [9]) true (some [3]) "T"
        [("note:a", encStoredNote)]).notes =
      [{ encStoredNote with content := [5] }] ∧
      ({ encStoredNote with content := [5] } : StoredNote) ≠ encStoredNote :=
  ⟨by decide, by decide⟩

/-- Claim C2 (amended): the background export handler does export
`{version: "2.0", exportedAt, encrypted, notes}` with every note-keyed
stored value included verbatim and nothing else — it is parametric in the
stored-value type, so it cannot decrypt; StorageManager.exportNotes, by
contrast, exports the getAllNotes view (see the counterexample) together
with encryptionEnabled and the salt. -/
theorem handleExportNotes_as_stored {α : Type} (s : List (String × α))
    (keyHeld : Bool) (nowIso : String) :
    (handleExportNotes s keyHeld nowIso).version = "2.0" ∧
      (handleExportNotes s keyHeld nowIso).exportedAt = nowIso ∧
      (handleExportNotes s keyHeld nowIso).encrypted = keyHeld ∧
      (∀ k v, (k, v) ∈ s → isNoteKey k = true →
        v ∈ (handleExportNotes s keyHeld nowIso).notes) ∧
      ∀ v ∈ (handleExportNotes s keyHeld nowIso).notes,
        ∃ k, (k, v) ∈ s ∧ isNoteKey k = true := by
  refine ⟨rfl, rfl, rfl, ?_, ?_⟩
  · intro k v hmem hk
    exact List.mem_filterMap.mpr ⟨(k, v), hmem, by simp [hk]⟩
  · intro v hv
    obtain ⟨e, he, hfe⟩ := List.mem_filterMap.mp hv
    by_cases hk : isNoteKey e.1
    · rw [if_pos hk] at hfe
      refine ⟨e.1, ?_, hk⟩
      rw [← Option.some.inj hfe]
      exact he
    · rw [if_neg hk] at hfe
      exact absurd hfe (by simp)

/-- Claim C2 amended witness: a concrete stored value under a note key
appears verbatim in the background export. -/
theorem handleExportNotes_as_stored_witness :
    (42 : Nat) ∈ (handleExportNotes [("note:x", (42 : Nat))] false "T").notes :=
  (handleExportNotes_as_stored [("note:x", (42 : Nat))] false "T").2.2.2.1 "note:x" 42
    (List.mem_cons_self _ _) (by decide)
